import Mathlib

/-!
Shallow embedding of the `vis_cpu` visibility kernel
(`src/vis_cpu/vis_cpu.py`) and proofs about it.

Modelling conventions:

* Machine floats are idealised as real numbers, except that NaN/Inf
  ("non-finite") values are tracked explicitly: a scalar produced by the
  pipeline lives in `Option ℝ` / `Option ℂ`, where `none` stands for a
  non-finite value.  `np.sqrt` of a negative real yields NaN (`none`);
  multiplication and addition propagate `none` exactly as IEEE arithmetic
  propagates NaN.
* numpy arrays are lists / total functions with explicit shape data.
  `antpos` is the list of antenna rows (each a 3-element list), `eq2tops`
  the list of 3x3 matrices (rows of rows), `crd_eq` the list of per-source
  3-vectors (the transposed layout of the `(3, NSRCS)` array, so that one
  source is one list element), `I_sky` the list of intensities.
* A beam object (external `UVBeam` / analytic beam, already interpolated
  to the single frequency of the call) is modelled by its response
  functions of the topocentric east/north direction cosines; the
  azimuth/zenith-angle conversion performed by the external
  `conversions.enu_to_az_za` helper is a fixed change of variables and is
  absorbed into the abstract response function.  `efield` is the
  `interp_beam[:, 0, :, 0, s]` block used when `polarized=True`; `power0`
  is the `interp_beam[0, 0, 0, 0, s]` value used when `polarized=False`.
  A `none` response value models a non-finite interpolation result.
* Python exceptions are modelled by `Except String`; the error strings are
  the messages raised by the source.
-/

noncomputable section

/-- A complex scalar of the pipeline; `none` models a non-finite value. -/
abbrev CC := Option ℂ

/-- NaN-propagating addition on pipeline scalars. -/
def oadd : CC → CC → CC
  | some a, some b => some (a + b)
  | _, _ => none

/-- NaN-propagating multiplication on pipeline scalars. -/
def omul : CC → CC → CC
  | some a, some b => some (a * b)
  | _, _ => none

/-- Complex conjugation on pipeline scalars (conjugation of NaN is NaN). -/
def ostar : CC → CC := Option.map (star ·)

/-- NaN-propagating sum of a list of pipeline scalars (`np.dot` reduction). -/
def osum : List CC → CC
  | [] => some 0
  | x :: xs => oadd x (osum xs)

/-- Model of `np.sqrt` on a real float: NaN (`none`) on negative input. -/
def npSqrt (x : ℝ) : Option ℝ :=
  if x < 0 then none else some (Real.sqrt x)

/-- Model of `np.sqrt` applied to a possibly non-finite real value. -/
def npSqrtO : Option ℝ → Option ℝ
  | none => none
  | some x => npSqrt x

/-- Speed of light in m/s, `astropy.constants.c.value`. -/
def cVal : ℝ := 299792458

/-- Model of one element of `beam_list`: an external beam object already
interpolated to the call frequency, described by its response at a
topocentric direction `(tX, tY)` together with the metadata consulted by
`_wrangle_beams`.  `efield` gives the `interp` output block
`[ax, 0, feed, 0, src]`; `power0` gives `interp` output `[0, 0, 0, 0, src]`. -/
structure ModelBeam where
  efield : ℝ → ℝ → ℕ → ℕ → CC
  power0 : ℝ → ℝ → Option ℝ
  beamType : String
  npols : ℕ
  pol0 : ℤ

instance : Inhabited ModelBeam :=
  ⟨⟨fun _ _ _ _ => some 0, fun _ _ => some 0, "power", 1, -5⟩⟩

/-- Dot product of two 3-element rows (out-of-range entries default to 0). -/
def dot3 (u v : List ℝ) : ℝ :=
  u.getD 0 0 * v.getD 0 0 + u.getD 1 0 * v.getD 1 0 + u.getD 2 0 * v.getD 2 0

/-- Row `k` of a matrix stored as a list of rows. -/
def matRow (m : List (List ℝ)) (k : ℕ) : List ℝ := m.getD k []

/-- Component `k` of `eq2top @ dir`: the topocentric (E, N, U) coordinates of
a source direction, `crd_top` in the source. -/
def topo (eq2top : List (List ℝ)) (dir : List ℝ) (k : ℕ) : ℝ :=
  dot3 (matRow eq2top k) dir

/-- A sky-model source: its celestial direction column of `crd_eq` paired
with its `I_sky` intensity. -/
abbrev Src := List ℝ × ℝ

/-- Topocentric "up" component `tz` of a source direction. -/
def tzOf (eq2top : List (List ℝ)) (p : Src) : ℝ := topo eq2top p.1 2

/-- The `above_horizon = tz > 0` mask applied to the source list
(`tx[above_horizon]` etc. in the source). -/
def selectUp (eq2top : List (List ℝ)) : List Src → List Src
  | [] => []
  | p :: rest =>
    if 0 < tzOf eq2top p then p :: selectUp eq2top rest else selectUp eq2top rest

/-- Beam amplitude used for one (axis, feed) pair: the `polarized` branch
takes the e-field block, the scalar branch takes `sqrt` of the single
power element (`_evaluate_beam_cpu`, lines 110-115). -/
def beamVal (polarized : Bool) (bm : ModelBeam) (tX tY : ℝ) (ax feed : ℕ) : CC :=
  if polarized then bm.efield tX tY ax feed
  else (npSqrtO (bm.power0 tX tY)).map Complex.ofReal

/-- The `A_s` array of `_evaluate_beam_cpu`, indexed `[ax, feed, beam, src]`;
`vsT` is the list of `(tx, ty)` pairs of the visible sources. -/
def A_s (polarized : Bool) (beams : List ModelBeam) (vsT : List (ℝ × ℝ))
    (ax feed b s : ℕ) : CC :=
  beamVal polarized (beams.getD b default) (vsT.getD s (0, 0)).1 (vsT.getD s (0, 0)).2 ax feed

/-- Model of `_evaluate_beam_cpu`: builds `A_s` and raises if any produced
amplitude is non-finite (lines 119-121 of the source). -/
def evaluate_beam_cpu (polarized : Bool) (beams : List ModelBeam)
    (nax nfeed nbeam ns : ℕ) (vsT : List (ℝ × ℝ)) :
    Except String (ℕ → ℕ → ℕ → ℕ → CC) :=
  if ∃ ax < nax, ∃ f < nfeed, ∃ b < nbeam, ∃ s < ns,
      (A_s polarized beams vsT ax f b s).isNone
  then .error "Beam interpolation resulted in an invalid value"
  else .ok (A_s polarized beams vsT)

/-- The beam-index derivation/validation of `_wrangle_beams` (lines 34-47). -/
def wrangleIdx : Option (List ℤ) → ℕ → ℕ → Except String (List ℤ)
  | none, nbeam, nant =>
    if nbeam = 1 then .ok (List.replicate nant 0)
    else if nbeam = nant then .ok ((List.range nant).map Int.ofNat)
    else .error "If number of beams provided is not 1 or nant, beam_idx must be provided."
  | some ix, nbeam, nant =>
    if ix.length ≠ nant then .error "beam_idx must be length nant"
    else if ¬ (∀ i ∈ ix, 0 ≤ i ∧ i < (nbeam : ℤ)) then
      .error "beam_idx contains indices greater than the number of beams"
    else .ok ix

/-- Model of `_wrangle_beams`: beam-index wrangling followed by the
beam-type / polarization compatibility checks (lines 58-70).  The
per-frequency `interp` step only re-packages the external beam objects and
is absorbed into `ModelBeam`. -/
def wrangle_beams (beam_idx : Option (List ℤ)) (beam_list : List ModelBeam)
    (polarized : Bool) (nant : ℕ) : Except String (List ℤ) :=
  match wrangleIdx beam_idx beam_list.length nant with
  | .error e => .error e
  | .ok idx =>
    if polarized = true ∧ ∃ b ∈ beam_list, b.beamType ≠ "efield" then
      .error "beam type must be efield if using polarized=True"
    else if polarized = false ∧ ∃ b ∈ beam_list,
        (b.beamType ≠ "power" ∨ 1 < b.npols ∨ (b.pol0 ≠ -5 ∧ b.pol0 ≠ -6)) then
      .error "beam type must be power and have only one pol (either xx or yy) if polarized=False"
    else .ok idx

/-- The caller-supplied arguments of `vis_cpu`. -/
structure VisArgs where
  antpos : List (List ℝ)
  freq : ℝ
  eq2tops : List (List (List ℝ))
  crd_eq : List (List ℝ)
  I_sky : List ℝ
  beam_list : List ModelBeam
  precision : ℕ
  polarized : Bool
  beam_idx : Option (List ℤ)

/-- Model of `_validate_inputs` (lines 126-145): shape assertions and the
derived counts `(nax, nfeed, nant, ntimes)`. -/
def validate_inputs (args : VisArgs) : Except String (ℕ × ℕ × ℕ × ℕ) :=
  if ¬ (args.precision = 1 ∨ args.precision = 2) then
    .error "precision must be 1 or 2"
  else if ¬ (∀ r ∈ args.antpos, r.length = 3) then
    .error "antpos must have shape (NANTS, 3)."
  else if ¬ (∀ m ∈ args.eq2tops, m.length = 3 ∧ ∀ r ∈ m, r.length = 3) then
    .error "eq2tops must have shape (NTIMES, 3, 3)."
  else if ¬ (∀ d ∈ args.crd_eq, d.length = 3) then
    .error "crd_eq must have shape (3, NSRCS)."
  else if ¬ (args.I_sky.length = args.crd_eq.length) then
    .error "I_sky must have shape (NSRCS,)."
  else
    .ok (if args.polarized then 2 else 1, if args.polarized then 2 else 1,
         args.antpos.length, args.eq2tops.length)

/-- Angular frequency `ang_freq = 2.0 * np.pi * freq` (line 246). -/
def ang_freq (freq : ℝ) : ℝ := 2 * Real.pi * freq

/-- The square-rooted half intensity `Isqrt = np.sqrt(0.5 * I_sky)`
(line 243); NaN (`none`) when the intensity is negative. -/
def IsqrtOf (intensity : ℝ) : Option ℝ := npSqrt (0.5 * intensity)

/-- Geometric delay `tau = np.dot(antpos / c.value, crd_top)` for antenna `a`
and a source direction `dir` (line 287): per-antenna, not per-baseline. -/
def tauOf (antpos : List (List ℝ)) (eq2top : List (List ℝ)) (a : ℕ)
    (dir : List ℝ) : ℝ :=
  (matRow antpos a).getD 0 0 / cVal * topo eq2top dir 0 +
    (matRow antpos a).getD 1 0 / cVal * topo eq2top dir 1 +
    (matRow antpos a).getD 2 0 / cVal * topo eq2top dir 2

/-- Pre-beam per-antenna voltage `v = np.exp(1.0j * (ang_freq * tau)) * Isqrt`
(line 324) for antenna `a` and source `p`. -/
def v0 (antpos : List (List ℝ)) (eq2top : List (List ℝ)) (freq : ℝ) (a : ℕ)
    (p : Src) : CC :=
  omul (some (Complex.exp (Complex.I * (ang_freq freq * tauOf antpos eq2top a p.1))))
    ((IsqrtOf p.2).map Complex.ofReal)

/-- Model of `get_antenna_vis` (lines 317-331): the beam array expanded from
beams to antennas along `beam_idx` and multiplied with the pre-beam
voltage.  The returned matrix is indexed by the structured row index
`(feed, ant)` and column index `(ax, src)`; the source performs the same
pairing through a row-major `reshape((nfeed*nant, nax*nsrcs_up))`. -/
def get_antenna_vis (A : ℕ → ℕ → ℕ → ℕ → CC) (antpos : List (List ℝ))
    (eq2top : List (List ℝ)) (freq : ℝ) (bidx : List ℤ) (vs : List Src)
    (f a ax s : ℕ) : CC :=
  omul (A ax f ((bidx.getD a 0).toNat) s) (v0 antpos eq2top freq a (vs.getD s ([], 0)))

/-- The list of `(tx, ty)` coordinate pairs of the visible sources handed to
`_evaluate_beam_cpu` (lines 259-260). -/
def vsTOf (eq2top : List (List ℝ)) (vs : List Src) : List (ℝ × ℝ) :=
  vs.map fun p => (topo eq2top p.1 0, topo eq2top p.1 1)

/-- The per-time voltage matrix: `get_antenna_vis` applied to the beam array
`A_s` evaluated on the visible sources of this time sample. -/
def stepV (polarized : Bool) (beams : List ModelBeam) (antpos : List (List ℝ))
    (freq : ℝ) (bidx : List ℤ) (eq2top : List (List ℝ)) (srcs : List Src)
    (f a ax s : ℕ) : CC :=
  get_antenna_vis
    (A_s polarized beams (vsTOf eq2top (selectUp eq2top srcs)))
    antpos eq2top freq bidx (selectUp eq2top srcs) f a ax s

/-- One entry of the per-time visibility slice `vis[t] = v.conj().dot(v.T)`
(line 305): entry `((f1,a1),(f2,a2))` is the sum over the flattened
`(ax, src)` column index of `conj(V[(f1,a1),(ax,s)]) * V[(f2,a2),(ax,s)]`. -/
def sliceEntry (V : ℕ → ℕ → ℕ → ℕ → CC) (nax ns : ℕ) (f1 a1 f2 a2 : ℕ) : CC :=
  osum ((List.range nax).flatMap fun ax =>
    (List.range ns).map fun s => omul (ostar (V f1 a1 ax s)) (V f2 a2 ax s))

/-- The visibility slice type: a function of `(f1, a1, f2, a2)`. -/
abbrev Slice := ℕ → ℕ → ℕ → ℕ → CC

/-- The zero slice used as a `getD` default. -/
def zeroSlice : Slice := fun _ _ _ _ => some 0

/-- The body of the time loop (lines 253-305) for one rotation matrix:
select the above-horizon sources, evaluate the beams (raising on a
non-finite amplitude), form the voltage matrix and the visibility slice. -/
def timeStep (polarized : Bool) (beams : List ModelBeam) (nax nfeed : ℕ)
    (bidx : List ℤ) (antpos : List (List ℝ)) (freq : ℝ)
    (eq2top : List (List ℝ)) (srcs : List Src) : Except String Slice :=
  match evaluate_beam_cpu polarized beams nax nfeed beams.length
      (selectUp eq2top srcs).length (vsTOf eq2top (selectUp eq2top srcs)) with
  | .error e => .error e
  | .ok A => .ok fun f1 a1 f2 a2 =>
      sliceEntry (get_antenna_vis A antpos eq2top freq bidx (selectUp eq2top srcs))
        nax (selectUp eq2top srcs).length f1 a1 f2 a2

/-- Sequential run of the time loop: the slices in input order, or the first
raised error. -/
def collectSteps (f : ℕ → Except String Slice) : List ℕ → Except String (List Slice)
  | [] => .ok []
  | t :: ts =>
    match f t with
    | .error e => .error e
    | .ok s =>
      match collectSteps f ts with
      | .error e => .error e
      | .ok rest => .ok (s :: rest)

/-- The output tensor: `shape` is the numpy shape, `entry` the value at a
(full-length, in-range) index list; `none` models a non-finite entry. -/
structure Tensor where
  shape : List ℕ
  entry : List ℕ → CC

/-- Assembly of the output tensor from the per-time slices: the
`vis.shape = (ntimes, nfeed, nant, nfeed, nant)` reshape followed by
`transpose((0, 1, 3, 2, 4))` for `polarized=True`, or the
`vis[:, 0, :, 0, :]` selection for `polarized=False` (lines 311-314). -/
def mkOut (polarized : Bool) (ntimes nfeed nant : ℕ) (slices : List Slice) : Tensor where
  shape := if polarized then [ntimes, nfeed, nfeed, nant, nant] else [ntimes, nant, nant]
  entry := fun ix =>
    match polarized, ix with
    | true, [t, f1, f2, a1, a2] => slices.getD t zeroSlice f1 a1 f2 a2
    | false, [t, a1, a2] => slices.getD t zeroSlice 0 a1 0 a2
    | _, _ => some 0

/-- The body of the time loop as a function of the time index `t`:
`timeStep` on the `t`-th rotation matrix and the zipped sky model. -/
def stepFun (args : VisArgs) (nax nfeed : ℕ) (bidx : List ℤ) (t : ℕ) :
    Except String Slice :=
  timeStep args.polarized args.beam_list nax nfeed bidx args.antpos args.freq
    (args.eq2tops.getD t []) (args.crd_eq.zip args.I_sky)

/-- Model of `vis_cpu` (lines 149-314): validation, beam wrangling, the time
loop, and the final reshape/transpose into the output tensor. -/
def vis_cpu (args : VisArgs) : Except String Tensor :=
  match validate_inputs args with
  | .error e => .error e
  | .ok (nax, nfeed, nant, ntimes) =>
    match wrangle_beams args.beam_idx args.beam_list args.polarized nant with
    | .error e => .error e
    | .ok bidx =>
      match collectSteps (stepFun args nax nfeed bidx) (List.range ntimes) with
      | .error e => .error e
      | .ok slices => .ok (mkOut args.polarized ntimes nfeed nant slices)

/-- The output entry of a finished call at an index list, `none` if the call
raised. -/
def getEntry (r : Except String Tensor) (ix : List ℕ) : Option CC :=
  match r with
  | .ok T => some (T.entry ix)
  | .error _ => none

/-- Modelled from the spec: the slice formula the specification states in
section 4.5, the conjugate-transpose product `V · Vᴴ` whose entry `(i, j)`
is row `i` of `V` dotted with the conjugate of row `j`.  Kept separate from
`sliceEntry` (which is translated from the code) so the two can be
compared. -/
def specVVH (V : ℕ → ℕ → ℕ → ℕ → CC) (nax ns : ℕ) (f1 a1 f2 a2 : ℕ) : CC :=
  osum ((List.range nax).flatMap fun ax =>
    (List.range ns).map fun s => omul (V f1 a1 ax s) (ostar (V f2 a2 ax s)))

/-- The zipped sky model (direction, intensity) handed to the time loop. -/
def stepSrcs (args : VisArgs) : List Src := args.crd_eq.zip args.I_sky

/-- The rotation matrix of time sample `t`. -/
def stepRot (args : VisArgs) (t : ℕ) : List (List ℝ) := args.eq2tops.getD t []

/-- The above-horizon source list of time sample `t`. -/
def stepVis (args : VisArgs) (t : ℕ) : List Src :=
  selectUp (stepRot args t) (stepSrcs args)

/-- The voltage matrix of time sample `t` (given the wrangled beam map). -/
def stepVmat (args : VisArgs) (bidx : List ℤ) (t : ℕ) : ℕ → ℕ → ℕ → ℕ → CC :=
  stepV args.polarized args.beam_list args.antpos args.freq bidx
    (stepRot args t) (stepSrcs args)

/-- Identity rotation matrix (zenith stays at zenith). -/
def id3 : List (List ℝ) := [[1, 0, 0], [0, 1, 0], [0, 0, 1]]

/-- A constant, finite, single-polarization (XX) power beam. -/
def constPowerBeam : ModelBeam :=
  ⟨fun _ _ _ _ => some 1, fun _ _ => some 1, "power", 1, -5⟩

/-- A constant, finite electric-field beam. -/
def constEfieldBeam : ModelBeam :=
  ⟨fun _ _ _ _ => some 1, fun _ _ => some 1, "efield", 1, -5⟩

/-- A power beam whose interpolation produces a non-finite value. -/
def nanBeam : ModelBeam :=
  ⟨fun _ _ _ _ => none, fun _ _ => none, "power", 1, -5⟩

/-- Standard concrete input: one antenna at the origin, one time sample with
the identity rotation, one zenith source of intensity 2, one constant power
beam, scalar mode, single precision. -/
def stdArgs : VisArgs :=
  ⟨[[0, 0, 0]], 1, [id3], [[0, 0, 1]], [2], [constPowerBeam], 1, false, none⟩

/-- As `stdArgs` but with the single source below the horizon. -/
def lowArgs : VisArgs :=
  ⟨[[0, 0, 0]], 1, [id3], [[0, 0, -1]], [2], [constPowerBeam], 1, false, none⟩

/-- As `stdArgs` but with a negative source intensity. -/
def negArgs : VisArgs :=
  ⟨[[0, 0, 0]], 1, [id3], [[0, 0, 1]], [-1], [constPowerBeam], 1, false, none⟩

/-- Two antennas (origin and (c, 0, 0)), frequency 1/(2 pi), one source in
direction (1, 0, 1): the two per-antenna phases differ by exactly one
radian. -/
def cex1Args : VisArgs :=
  ⟨[[0, 0, 0], [cVal, 0, 0]], 1 / (2 * Real.pi), [id3], [[1, 0, 1]], [2],
    [constPowerBeam], 1, false, none⟩

/-- As `stdArgs` but requesting polarized output from the power beam. -/
def mmArgs : VisArgs :=
  ⟨[[0, 0, 0]], 1, [id3], [[0, 0, 1]], [2], [constPowerBeam], 1, true, none⟩

/-- As `stdArgs` but with a beam that interpolates to a non-finite value. -/
def nanArgs : VisArgs :=
  ⟨[[0, 0, 0]], 1, [id3], [[0, 0, 1]], [2], [nanBeam], 1, false, none⟩

/-- Three beams for one antenna and no explicit map: `_wrangle_beams` must
fail. -/
def badIdxArgs : VisArgs :=
  ⟨[[0, 0, 0]], 1, [id3], [[0, 0, 1]], [2],
    [constPowerBeam, constPowerBeam, constPowerBeam], 1, false, none⟩

/-- The slice of a successful step (`zeroSlice` for an error, never used). -/
def okValue : Except String Slice → Slice
  | .ok s => s
  | .error _ => zeroSlice

lemma omul_none_right (x : CC) : omul x none = none := by
  cases x <;> rfl

lemma omul_none_left (x : CC) : omul none x = none := by
  cases x <;> rfl

lemma omul_isSome {x y : CC} (hx : x.isSome) (hy : y.isSome) : (omul x y).isSome := by
  cases x <;> cases y <;> simp_all [omul]

lemma ostar_isSome {x : CC} (hx : x.isSome) : (ostar x).isSome := by
  cases x <;> simp_all [ostar]

lemma omul_ostar_comm (x y : CC) : omul (ostar x) y = ostar (omul (ostar y) x) := by
  cases x <;> cases y <;> simp [omul, ostar, mul_comm]

lemma oadd_ostar (x y : CC) : oadd (ostar x) (ostar y) = ostar (oadd x y) := by
  cases x <;> cases y <;> simp [oadd, ostar]

lemma osum_map_ostar (l : List CC) : osum (l.map ostar) = ostar (osum l) := by
  induction l with
  | nil => simp [osum, ostar]
  | cons x xs ih => simp [osum, ih, oadd_ostar]

lemma osum_isSome {l : List CC} (h : ∀ x ∈ l, x.isSome) : (osum l).isSome := by
  induction l with
  | nil => simp [osum]
  | cons x xs ih =>
    have hx := h x (by simp)
    have hxs : (osum xs).isSome := ih fun y hy => h y (by simp [hy])
    cases hx' : x <;> cases hs : osum xs <;> simp_all [osum, oadd]

lemma osum_real {l : List CC}
    (h : ∀ w ∈ l, ∀ z : ℂ, w = some z → z.im = 0) :
    ∀ z : ℂ, osum l = some z → z.im = 0 := by
  induction l with
  | nil => intro z hz; simp [osum] at hz; simp [← hz]
  | cons x xs ih =>
    intro z hz
    simp only [osum] at hz
    cases hx : x with
    | none => rw [hx] at hz; simp [oadd] at hz
    | some a =>
      cases hs : osum xs with
      | none => rw [hx, hs] at hz; simp [oadd] at hz
      | some b =>
        rw [hx, hs] at hz
        simp [oadd] at hz
        have ha : a.im = 0 := h x (by simp) a hx
        have hb : b.im = 0 := ih (fun w hw => h w (by simp [hw])) b hs
        rw [← hz]
        simp [Complex.add_im, ha, hb]

lemma sliceEntry_hermitian (V : ℕ → ℕ → ℕ → ℕ → CC) (nax ns f1 a1 f2 a2 : ℕ) :
    sliceEntry V nax ns f1 a1 f2 a2 = ostar (sliceEntry V nax ns f2 a2 f1 a1) := by
  unfold sliceEntry
  rw [← osum_map_ostar]
  congr 1
  rw [List.map_flatMap]
  congr 1
  funext ax
  rw [List.map_map]
  congr 1
  funext s
  exact omul_ostar_comm (V f1 a1 ax s) (V f2 a2 ax s)

lemma sliceEntry_diag_real (V : ℕ → ℕ → ℕ → ℕ → CC) (nax ns f a : ℕ) :
    ∀ z : ℂ, sliceEntry V nax ns f a f a = some z → z.im = 0 := by
  unfold sliceEntry
  apply osum_real
  intro w hw z hz
  simp only [List.mem_flatMap, List.mem_map, List.mem_range] at hw
  obtain ⟨ax, -, s, -, rfl⟩ := hw
  cases hv : V f a ax s with
  | none => rw [hv] at hz; simp [ostar, omul] at hz
  | some c =>
    rw [hv] at hz
    simp [ostar, omul] at hz
    rw [← hz]
    simp [Complex.mul_im, Complex.conj_re, Complex.conj_im]
    ring

lemma sliceEntry_empty (V : ℕ → ℕ → ℕ → ℕ → CC) (nax f1 a1 f2 a2 : ℕ) :
    sliceEntry V nax 0 f1 a1 f2 a2 = some 0 := by
  unfold sliceEntry
  simp only [List.range_zero, List.map_nil]
  rw [List.flatMap_eq_nil_iff.mpr (by simp)]
  simp [osum]

lemma sliceEntry_isSome (V : ℕ → ℕ → ℕ → ℕ → CC) (nax ns f1 a1 f2 a2 : ℕ)
    (h : ∀ ax < nax, ∀ s < ns, (V f1 a1 ax s).isSome ∧ (V f2 a2 ax s).isSome) :
    (sliceEntry V nax ns f1 a1 f2 a2).isSome := by
  unfold sliceEntry
  apply osum_isSome
  intro x hx
  simp only [List.mem_flatMap, List.mem_map, List.mem_range] at hx
  obtain ⟨ax, hax, s, hs, rfl⟩ := hx
  exact omul_isSome (ostar_isSome (h ax hax s hs).1) (h ax hax s hs).2

lemma selectUp_append (m : List (List ℝ)) (l1 l2 : List Src) :
    selectUp m (l1 ++ l2) = selectUp m l1 ++ selectUp m l2 := by
  induction l1 with
  | nil => simp [selectUp]
  | cons p rest ih =>
    simp only [List.cons_append, selectUp, List.append_eq]
    by_cases h : 0 < tzOf m p
    · rw [if_pos h, if_pos h, ih, List.cons_append]
    · rw [if_neg h, if_neg h, ih]

lemma selectUp_cons_of_nonpos {m : List (List ℝ)} {p : Src}
    (h : tzOf m p ≤ 0) (l : List Src) :
    selectUp m (p :: l) = selectUp m l := by
  simp only [selectUp]
  rw [if_neg (not_lt.mpr h)]

lemma selectUp_subset {m : List (List ℝ)} {l : List Src} {p : Src}
    (h : p ∈ selectUp m l) : p ∈ l := by
  induction l with
  | nil => simp [selectUp] at h
  | cons q rest ih =>
    simp only [selectUp] at h
    by_cases hq : 0 < tzOf m q
    · rw [if_pos hq] at h
      rcases List.mem_cons.mp h with h1 | h2
      · simp [h1]
      · simp [ih h2]
    · rw [if_neg hq] at h
      simp [ih h]

lemma collectSteps_ok {f : ℕ → Except String Slice} {ts : List ℕ}
    {l : List Slice} (h : collectSteps f ts = .ok l) :
    l = ts.map (fun t => okValue (f t)) ∧ ∀ t ∈ ts, (f t).isOk := by
  induction ts generalizing l with
  | nil =>
    simp only [collectSteps] at h
    cases h
    simp
  | cons t ts ih =>
    simp only [collectSteps] at h
    cases hf : f t with
    | error e => rw [hf] at h; exact absurd h (by simp)
    | ok s =>
      rw [hf] at h
      cases hrest : collectSteps f ts with
      | error e => rw [hrest] at h; exact absurd h (by simp)
      | ok rest =>
        rw [hrest] at h
        cases h
        obtain ⟨h1, h2⟩ := ih hrest
        constructor
        · simp only [List.map_cons, hf, okValue]
          rw [h1]
          exact rfl
        · intro u hu
          rcases List.mem_cons.mp hu with h3 | h4
          · rw [h3, hf]; rfl
          · exact h2 u h4

lemma collectSteps_error {f : ℕ → Except String Slice} {ts : List ℕ} {t : ℕ}
    {msg : String} (hmem : t ∈ ts) (ht : f t = .error msg)
    (hall : ∀ u ∈ ts, ∀ e, f u = .error e → e = msg) :
    collectSteps f ts = .error msg := by
  induction ts with
  | nil => simp at hmem
  | cons u ts ih =>
    simp only [collectSteps]
    cases hu : f u with
    | error e => rw [hall u (by simp) e hu]
    | ok s =>
      have htail : t ∈ ts := by
        rcases List.mem_cons.mp hmem with h1 | h2
        · rw [h1, hu] at ht; exact absurd ht (by simp)
        · exact h2
      rw [ih htail fun v hv e hv' => hall v (by simp [hv]) e hv']

lemma timeStep_error_msg {polarized : Bool} {beams : List ModelBeam}
    {nax nfeed : ℕ} {bidx : List ℤ} {antpos : List (List ℝ)} {freq : ℝ}
    {eq2top : List (List ℝ)} {srcs : List Src} {e : String}
    (h : timeStep polarized beams nax nfeed bidx antpos freq eq2top srcs = .error e) :
    e = "Beam interpolation resulted in an invalid value" := by
  unfold timeStep at h
  cases hev : evaluate_beam_cpu polarized beams nax nfeed beams.length
      (selectUp eq2top srcs).length (vsTOf eq2top (selectUp eq2top srcs)) with
  | error e2 =>
    rw [hev] at h
    cases h
    unfold evaluate_beam_cpu at hev
    by_cases hc : ∃ ax < nax, ∃ f < nfeed, ∃ b < beams.length,
        ∃ s < (selectUp eq2top srcs).length,
        (A_s polarized beams (vsTOf eq2top (selectUp eq2top srcs)) ax f b s).isNone
    · rw [if_pos hc] at hev; cases hev; rfl
    · rw [if_neg hc] at hev; exact absurd hev (by simp)
  | ok A => rw [hev] at h; exact absurd h (by simp)

lemma timeStep_ok_val {polarized : Bool} {beams : List ModelBeam}
    {nax nfeed : ℕ} {bidx : List ℤ} {antpos : List (List ℝ)} {freq : ℝ}
    {eq2top : List (List ℝ)} {srcs : List Src} {S : Slice}
    (h : timeStep polarized beams nax nfeed bidx antpos freq eq2top srcs = .ok S) :
    S = fun f1 a1 f2 a2 =>
      sliceEntry (stepV polarized beams antpos freq bidx eq2top srcs)
        nax (selectUp eq2top srcs).length f1 a1 f2 a2 := by
  unfold timeStep at h
  cases hev : evaluate_beam_cpu polarized beams nax nfeed beams.length
      (selectUp eq2top srcs).length (vsTOf eq2top (selectUp eq2top srcs)) with
  | error e => rw [hev] at h; exact absurd h (by simp)
  | ok A =>
    rw [hev] at h
    cases h
    have hA : A = A_s polarized beams (vsTOf eq2top (selectUp eq2top srcs)) := by
      unfold evaluate_beam_cpu at hev
      by_cases hc : ∃ ax < nax, ∃ f < nfeed, ∃ b < beams.length,
          ∃ s < (selectUp eq2top srcs).length,
          (A_s polarized beams (vsTOf eq2top (selectUp eq2top srcs)) ax f b s).isNone
      · rw [if_pos hc] at hev; exact absurd hev (by simp)
      · rw [if_neg hc] at hev; cases hev; rfl
    rw [hA]
    rfl

lemma timeStep_congr_select {polarized : Bool} {beams : List ModelBeam}
    {nax nfeed : ℕ} {bidx : List ℤ} {antpos : List (List ℝ)} {freq : ℝ}
    {eq2top : List (List ℝ)} {srcs1 srcs2 : List Src}
    (h : selectUp eq2top srcs1 = selectUp eq2top srcs2) :
    timeStep polarized beams nax nfeed bidx antpos freq eq2top srcs1 =
      timeStep polarized beams nax nfeed bidx antpos freq eq2top srcs2 := by
  unfold timeStep
  rw [h]

lemma getD_replicate_zero (n a : ℕ) : (List.replicate n (0 : ℤ)).getD a 0 = 0 := by
  induction n generalizing a with
  | zero => cases a <;> rfl
  | succ n ih => cases a with
    | zero => rfl
    | succ a => simp only [List.replicate, List.getD_cons_succ]; exact ih a

lemma getD_range_map (n a : ℕ) (h : a < n) :
    ((List.range n).map Int.ofNat).getD a 0 = (a : ℤ) := by
  rw [List.getD_eq_getElem _ _ (by simpa using h)]
  simp

lemma wrangleIdx_ok_bounds {bi : Option (List ℤ)} {nbeam nant : ℕ} {idx : List ℤ}
    (h : wrangleIdx bi nbeam nant = .ok idx) :
    ∀ a < nant, 0 ≤ idx.getD a 0 ∧ (idx.getD a 0).toNat < nbeam := by
  intro a ha
  cases bi with
  | none =>
    simp only [wrangleIdx] at h
    by_cases h1 : nbeam = 1
    · rw [if_pos h1] at h
      cases h
      rw [getD_replicate_zero]
      omega
    · rw [if_neg h1] at h
      by_cases h2 : nbeam = nant
      · rw [if_pos h2] at h
        cases h
        rw [getD_range_map nant a ha]
        omega
      · rw [if_neg h2] at h
        exact absurd h (by simp)
  | some ix =>
    simp only [wrangleIdx] at h
    by_cases h1 : ix.length ≠ nant
    · rw [if_pos h1] at h
      exact absurd h (by simp)
    · rw [if_neg h1] at h
      push_neg at h1
      by_cases h2 : ¬ (∀ i ∈ ix, 0 ≤ i ∧ i < (nbeam : ℤ))
      · rw [if_pos h2] at h
        exact absurd h (by simp)
      · rw [if_neg h2] at h
        cases h
        push_neg at h2
        have hmem : idx.getD a 0 ∈ idx := by
          rw [List.getD_eq_getElem _ _ (by omega)]
          exact List.getElem_mem _
        obtain ⟨hge, hlt⟩ := h2 _ hmem
        exact ⟨hge, by omega⟩

lemma wrangle_beams_ok_idx {bi : Option (List ℤ)} {bl : List ModelBeam}
    {pol : Bool} {nant : ℕ} {bidx : List ℤ}
    (h : wrangle_beams bi bl pol nant = .ok bidx) :
    wrangleIdx bi bl.length nant = .ok bidx := by
  unfold wrangle_beams at h
  split at h
  · exact absurd h (by simp)
  · rename_i idx hw
    split at h
    · exact absurd h (by simp)
    · split at h
      · exact absurd h (by simp)
      · cases h
        exact hw

lemma vis_cpu_eq {args : VisArgs} {nax nfeed nant ntimes : ℕ} {bidx : List ℤ}
    {slices : List Slice}
    (h1 : validate_inputs args = .ok (nax, nfeed, nant, ntimes))
    (h2 : wrangle_beams args.beam_idx args.beam_list args.polarized nant = .ok bidx)
    (h3 : collectSteps (stepFun args nax nfeed bidx) (List.range ntimes) = .ok slices) :
    vis_cpu args = .ok (mkOut args.polarized ntimes nfeed nant slices) := by
  simp only [vis_cpu, h1, h2, h3]

lemma vis_cpu_error_wrangle {args : VisArgs} {nax nfeed nant ntimes : ℕ} {e : String}
    (h1 : validate_inputs args = .ok (nax, nfeed, nant, ntimes))
    (h2 : wrangle_beams args.beam_idx args.beam_list args.polarized nant = .error e) :
    vis_cpu args = .error e := by
  simp only [vis_cpu, h1, h2]

lemma vis_cpu_error_steps {args : VisArgs} {nax nfeed nant ntimes : ℕ}
    {bidx : List ℤ} {e : String}
    (h1 : validate_inputs args = .ok (nax, nfeed, nant, ntimes))
    (h2 : wrangle_beams args.beam_idx args.beam_list args.polarized nant = .ok bidx)
    (h3 : collectSteps (stepFun args nax nfeed bidx) (List.range ntimes) = .error e) :
    vis_cpu args = .error e := by
  simp only [vis_cpu, h1, h2, h3]

lemma vis_cpu_ok_inv {args : VisArgs} {T : Tensor} (h : vis_cpu args = .ok T) :
    ∃ nax nfeed nant ntimes bidx slices,
      validate_inputs args = .ok (nax, nfeed, nant, ntimes) ∧
      wrangle_beams args.beam_idx args.beam_list args.polarized nant = .ok bidx ∧
      collectSteps (stepFun args nax nfeed bidx) (List.range ntimes) = .ok slices ∧
      T = mkOut args.polarized ntimes nfeed nant slices := by
  unfold vis_cpu at h
  split at h
  · exact absurd h (by simp)
  · rename_i nax nfeed nant ntimes hv
    split at h
    · exact absurd h (by simp)
    · rename_i bidx hw
      split at h
      · exact absurd h (by simp)
      · rename_i slices hc
        cases h
        exact ⟨nax, nfeed, nant, ntimes, bidx, slices, hv, hw, hc, rfl⟩

lemma validate_inputs_ok_inv {args : VisArgs} {nax nfeed nant ntimes : ℕ}
    (h : validate_inputs args = .ok (nax, nfeed, nant, ntimes)) :
    nax = (if args.polarized then 2 else 1) ∧
    nfeed = (if args.polarized then 2 else 1) ∧
    nant = args.antpos.length ∧ ntimes = args.eq2tops.length := by
  unfold validate_inputs at h
  split at h
  · exact absurd h (by simp)
  · split at h
    · exact absurd h (by simp)
    · split at h
      · exact absurd h (by simp)
      · split at h
        · exact absurd h (by simp)
        · split at h
          · exact absurd h (by simp)
          · cases h
            exact ⟨rfl, rfl, rfl, rfl⟩

lemma v0_isSome {antpos eq2top : List (List ℝ)} {freq : ℝ} {a : ℕ} {p : Src}
    (h : 0 ≤ p.2) : (v0 antpos eq2top freq a p).isSome := by
  unfold v0 IsqrtOf npSqrt
  rw [if_neg (by linarith : ¬ (0.5 * p.2 < 0))]
  simp [omul]

lemma timeStep_ok_A_isSome {polarized : Bool} {beams : List ModelBeam}
    {nax nfeed : ℕ} {bidx : List ℤ} {antpos : List (List ℝ)} {freq : ℝ}
    {eq2top : List (List ℝ)} {srcs : List Src} {S : Slice}
    (h : timeStep polarized beams nax nfeed bidx antpos freq eq2top srcs = .ok S) :
    ∀ ax < nax, ∀ f < nfeed, ∀ b < beams.length,
      ∀ s < (selectUp eq2top srcs).length,
      (A_s polarized beams (vsTOf eq2top (selectUp eq2top srcs)) ax f b s).isSome := by
  intro ax hax f hf b hb s hs
  unfold timeStep at h
  cases hev : evaluate_beam_cpu polarized beams nax nfeed beams.length
      (selectUp eq2top srcs).length (vsTOf eq2top (selectUp eq2top srcs)) with
  | error e => rw [hev] at h; exact absurd h (by simp)
  | ok A =>
    unfold evaluate_beam_cpu at hev
    by_cases hc : ∃ ax < nax, ∃ f < nfeed, ∃ b < beams.length,
        ∃ s < (selectUp eq2top srcs).length,
        (A_s polarized beams (vsTOf eq2top (selectUp eq2top srcs)) ax f b s).isNone
    · rw [if_pos hc] at hev; exact absurd hev (by simp)
    · push_neg at hc
      have := hc ax hax f hf b hb s hs
      cases hA : A_s polarized beams (vsTOf eq2top (selectUp eq2top srcs)) ax f b s with
      | none => rw [hA] at this; simp at this
      | some w => simp

lemma selectUp_eq_nil {eq2top : List (List ℝ)} {srcs : List Src}
    (h : ∀ p ∈ srcs, tzOf eq2top p ≤ 0) : selectUp eq2top srcs = [] := by
  induction srcs with
  | nil => rfl
  | cons p rest ih =>
    rw [selectUp_cons_of_nonpos (h p (by simp))]
    exact ih fun q hq => h q (by simp [hq])

lemma collectSteps_congr {f g : ℕ → Except String Slice} {ts : List ℕ}
    (h : ∀ t ∈ ts, f t = g t) : collectSteps f ts = collectSteps g ts := by
  induction ts with
  | nil => rfl
  | cons t ts ih =>
    simp only [collectSteps]
    rw [h t (by simp), ih fun u hu => h u (by simp [hu])]

lemma getD_map_range {α : Type} [Inhabited α] (f : ℕ → α) (n t : ℕ) (d : α)
    (h : t < n) : ((List.range n).map f).getD t d = f t := by
  rw [List.getD_eq_getElem _ _ (by simpa using h)]
  simp

lemma slices_getD_of_collect {args : VisArgs} {nax nfeed : ℕ} {bidx : List ℤ}
    {ntimes : ℕ} {slices : List Slice} {t : ℕ}
    (hc : collectSteps (stepFun args nax nfeed bidx) (List.range ntimes) = .ok slices)
    (ht : t < ntimes) :
    slices.getD t zeroSlice = okValue (stepFun args nax nfeed bidx t) ∧
      (stepFun args nax nfeed bidx t).isOk := by
  obtain ⟨h1, h2⟩ := collectSteps_ok hc
  constructor
  · rw [h1, getD_map_range _ _ _ _ ht]
  · exact h2 t (by simpa using ht)

lemma slices_entry_form {args : VisArgs} {nax nfeed : ℕ} {bidx : List ℤ}
    {ntimes : ℕ} {slices : List Slice} {t : ℕ}
    (hc : collectSteps (stepFun args nax nfeed bidx) (List.range ntimes) = .ok slices)
    (ht : t < ntimes) :
    slices.getD t zeroSlice = fun f1 a1 f2 a2 =>
      sliceEntry (stepVmat args bidx t) nax (stepVis args t).length f1 a1 f2 a2 := by
  obtain ⟨h1, h2⟩ := slices_getD_of_collect hc ht
  rw [h1]
  cases hS : stepFun args nax nfeed bidx t with
  | error e => rw [hS] at h2; exact absurd h2 (by simp [Except.isOk, Except.toBool])
  | ok S =>
    have hval := timeStep_ok_val (show timeStep args.polarized args.beam_list nax nfeed
      bidx args.antpos args.freq (args.eq2tops.getD t [])
      (args.crd_eq.zip args.I_sky) = .ok S from hS)
    simp only [okValue]
    rw [hval]
    rfl

lemma A_s_constPower (vsT : List (ℝ × ℝ)) (ax f s : ℕ) :
    A_s false [constPowerBeam] vsT ax f 0 s = some 1 := by
  simp only [A_s, beamVal, constPowerBeam, List.getD_cons_zero, Bool.false_eq_true,
    if_false, npSqrtO]
  rw [npSqrt, if_neg (by norm_num : ¬ ((1 : ℝ) < 0))]
  simp [Real.sqrt_one]

lemma A_s_nan (vsT : List (ℝ × ℝ)) (ax f s : ℕ) :
    A_s false [nanBeam] vsT ax f 0 s = none := by
  simp [A_s, beamVal, nanBeam, npSqrtO]

lemma sel_std : selectUp id3 [([0, 0, 1], (2 : ℝ))] = [([0, 0, 1], 2)] := by
  simp only [selectUp]
  rw [if_pos]
  unfold tzOf topo dot3 matRow
  norm_num [id3]

lemma sel_low : selectUp id3 [([0, 0, -1], (2 : ℝ))] = [] := by
  simp only [selectUp]
  rw [if_neg]
  unfold tzOf topo dot3 matRow
  norm_num [id3]

lemma std_ev : evaluate_beam_cpu false [constPowerBeam] 1 1 1 1
    (vsTOf id3 [([0, 0, 1], 2)]) =
    .ok (A_s false [constPowerBeam] (vsTOf id3 [([0, 0, 1], 2)])) := by
  unfold evaluate_beam_cpu
  rw [if_neg]
  rintro ⟨ax, hax, f, hf, b, hb, s, hs, hnone⟩
  have hb0 : b = 0 := by omega
  subst hb0
  rw [A_s_constPower] at hnone
  simp at hnone

lemma std_step : stepFun stdArgs 1 1 [0] 0 =
    .ok (fun f1 a1 f2 a2 =>
      sliceEntry (get_antenna_vis (A_s false [constPowerBeam] (vsTOf id3 [([0, 0, 1], 2)]))
        [[0, 0, 0]] id3 1 [0] [([0, 0, 1], 2)]) 1 1 f1 a1 f2 a2) := by
  show timeStep false [constPowerBeam] 1 1 [0] [[0, 0, 0]] 1 id3 [([0, 0, 1], 2)] = _
  unfold timeStep
  rw [sel_std]
  simp only [List.length_cons, List.length_nil, List.length_singleton]
  rw [std_ev]

lemma std_collect : collectSteps (stepFun stdArgs 1 1 [0]) (List.range 1) =
    .ok [fun f1 a1 f2 a2 =>
      sliceEntry (get_antenna_vis (A_s false [constPowerBeam] (vsTOf id3 [([0, 0, 1], 2)]))
        [[0, 0, 0]] id3 1 [0] [([0, 0, 1], 2)]) 1 1 f1 a1 f2 a2] := by
  rw [show List.range 1 = [0] from rfl]
  unfold collectSteps
  rw [std_step]
  rfl

lemma std_eval : ∃ T, vis_cpu stdArgs = .ok T ∧ T.shape = [1, 1, 1] :=
  ⟨_, vis_cpu_eq rfl rfl std_collect, rfl⟩

lemma osum_singleton (x : CC) : osum [x] = x := by
  cases x <;> simp [osum, oadd]

lemma tzOf_id3 (d0 d1 d2 i : ℝ) : tzOf id3 ([d0, d1, d2], i) = d2 := by
  unfold tzOf topo dot3 matRow id3
  norm_num

lemma tau_test : tauOf [[0, 0, 0], [cVal, 0, 0]] id3 1 [1, 0, 1] = 1 := by
  unfold tauOf topo dot3 matRow id3 cVal
  norm_num

lemma tau_test0 : tauOf [[0, 0, 0], [cVal, 0, 0]] id3 0 [1, 0, 1] = 0 := by
  unfold tauOf topo dot3 matRow id3
  norm_num

lemma ang_test : ang_freq (1 / (2 * Real.pi)) = 1 := by
  unfold ang_freq
  field_simp

lemma sliceEntry_one (V : ℕ → ℕ → ℕ → ℕ → CC) (f1 a1 f2 a2 : ℕ) :
    sliceEntry V 1 1 f1 a1 f2 a2 = omul (ostar (V f1 a1 0 0)) (V f2 a2 0 0) := by
  unfold sliceEntry
  rw [show List.range 1 = [0] from rfl]
  simp only [List.flatMap_cons, List.flatMap_nil, List.map_cons, List.map_nil,
    List.append_nil]
  exact osum_singleton _

lemma specVVH_one (V : ℕ → ℕ → ℕ → ℕ → CC) (f1 a1 f2 a2 : ℕ) :
    specVVH V 1 1 f1 a1 f2 a2 = omul (V f1 a1 0 0) (ostar (V f2 a2 0 0)) := by
  unfold specVVH
  rw [show List.range 1 = [0] from rfl]
  simp only [List.flatMap_cons, List.flatMap_nil, List.map_cons, List.map_nil,
    List.append_nil]
  exact osum_singleton _

lemma v0_cex0 : v0 [[0, 0, 0], [cVal, 0, 0]] id3 (1 / (2 * Real.pi)) 0 ([1, 0, 1], 2) =
    some 1 := by
  unfold v0 IsqrtOf
  simp only
  rw [show (0.5 * 2 : ℝ) = 1 by norm_num, npSqrt,
    if_neg (by norm_num : ¬ ((1 : ℝ) < 0)), ang_test, tau_test0]
  simp [omul, Real.sqrt_one, Complex.exp_zero]

lemma v0_cex1 : v0 [[0, 0, 0], [cVal, 0, 0]] id3 (1 / (2 * Real.pi)) 1 ([1, 0, 1], 2) =
    some (Complex.exp Complex.I) := by
  unfold v0 IsqrtOf
  simp only
  rw [show (0.5 * 2 : ℝ) = 1 by norm_num, npSqrt,
    if_neg (by norm_num : ¬ ((1 : ℝ) < 0)), ang_test, tau_test]
  simp [omul, Real.sqrt_one]

lemma sel_cex1 : selectUp id3 [([1, 0, 1], (2 : ℝ))] = [([1, 0, 1], 2)] := by
  simp only [selectUp]
  rw [if_pos]
  rw [tzOf_id3]
  norm_num

lemma cex1_V00 : get_antenna_vis (A_s false [constPowerBeam] (vsTOf id3 [([1, 0, 1], 2)]))
    [[0, 0, 0], [cVal, 0, 0]] id3 (1 / (2 * Real.pi)) [0, 0] [([1, 0, 1], 2)] 0 0 0 0 =
    some 1 := by
  unfold get_antenna_vis
  simp only [List.getD_cons_zero, Int.toNat_zero]
  rw [A_s_constPower, v0_cex0]
  simp [omul]

lemma cex1_V01 : get_antenna_vis (A_s false [constPowerBeam] (vsTOf id3 [([1, 0, 1], 2)]))
    [[0, 0, 0], [cVal, 0, 0]] id3 (1 / (2 * Real.pi)) [0, 0] [([1, 0, 1], 2)] 0 1 0 0 =
    some (Complex.exp Complex.I) := by
  unfold get_antenna_vis
  simp only [List.getD_cons_zero, List.getD_cons_succ, Int.toNat_zero]
  rw [A_s_constPower, v0_cex1]
  simp [omul]

lemma constPower_ev (vsT : List (ℝ × ℝ)) (ns : ℕ) :
    evaluate_beam_cpu false [constPowerBeam] 1 1 1 ns vsT =
      .ok (A_s false [constPowerBeam] vsT) := by
  unfold evaluate_beam_cpu
  rw [if_neg]
  rintro ⟨ax, hax, f, hf, b, hb, s, hs, hnone⟩
  have hb0 : b = 0 := by omega
  subst hb0
  rw [A_s_constPower] at hnone
  simp at hnone

lemma cex1_step : stepFun cex1Args 1 1 [0, 0] 0 =
    .ok (fun f1 a1 f2 a2 =>
      sliceEntry (get_antenna_vis (A_s false [constPowerBeam] (vsTOf id3 [([1, 0, 1], 2)]))
        [[0, 0, 0], [cVal, 0, 0]] id3 (1 / (2 * Real.pi)) [0, 0] [([1, 0, 1], 2)])
        1 1 f1 a1 f2 a2) := by
  show timeStep false [constPowerBeam] 1 1 [0, 0] [[0, 0, 0], [cVal, 0, 0]]
    (1 / (2 * Real.pi)) id3 [([1, 0, 1], 2)] = _
  unfold timeStep
  rw [sel_cex1]
  simp only [List.length_cons, List.length_nil, List.length_singleton]
  rw [constPower_ev]

lemma cex1_collect : collectSteps (stepFun cex1Args 1 1 [0, 0]) (List.range 1) =
    .ok [fun f1 a1 f2 a2 =>
      sliceEntry (get_antenna_vis (A_s false [constPowerBeam] (vsTOf id3 [([1, 0, 1], 2)]))
        [[0, 0, 0], [cVal, 0, 0]] id3 (1 / (2 * Real.pi)) [0, 0] [([1, 0, 1], 2)])
        1 1 f1 a1 f2 a2] := by
  rw [show List.range 1 = [0] from rfl]
  unfold collectSteps
  rw [cex1_step]
  rfl

lemma cex1_entry : getEntry (vis_cpu cex1Args) [0, 0, 1] =
    some (some (Complex.exp Complex.I)) := by
  rw [vis_cpu_eq (show validate_inputs cex1Args = Except.ok (1, 1, 2, 1) from rfl)
    (show wrangle_beams cex1Args.beam_idx cex1Args.beam_list cex1Args.polarized 2 =
      Except.ok [0, 0] from rfl) cex1_collect]
  unfold getEntry
  simp only [mkOut, show cex1Args.polarized = false from rfl, List.getD_cons_zero]
  rw [sliceEntry_one, cex1_V00, cex1_V01]
  simp [ostar, omul]

lemma cex1_vmat : stepVmat cex1Args [0, 0] 0 =
    get_antenna_vis (A_s false [constPowerBeam] (vsTOf id3 [([1, 0, 1], 2)]))
      [[0, 0, 0], [cVal, 0, 0]] id3 (1 / (2 * Real.pi)) [0, 0] [([1, 0, 1], 2)] := by
  show stepV false [constPowerBeam] [[0, 0, 0], [cVal, 0, 0]] (1 / (2 * Real.pi))
    [0, 0] id3 [([1, 0, 1], 2)] = _
  unfold stepV
  rw [sel_cex1]

lemma cex1_spec : specVVH (stepVmat cex1Args [0, 0] 0) 1 1 0 0 0 1 =
    some ((starRingEnd ℂ) (Complex.exp Complex.I)) := by
  rw [cex1_vmat, specVVH_one, cex1_V00, cex1_V01]
  simp [ostar, omul]

lemma sin_one_pos : 0 < Real.sin 1 :=
  Real.sin_pos_of_pos_of_lt_pi (by norm_num) (by linarith [Real.pi_gt_three])

lemma vis_cpu_error_validate {args : VisArgs} {e : String}
    (h : validate_inputs args = .error e) : vis_cpu args = .error e := by
  simp only [vis_cpu, h]

lemma timeStep_all_below {polarized : Bool} {beams : List ModelBeam}
    {nax nfeed : ℕ} {bidx : List ℤ} {antpos : List (List ℝ)} {freq : ℝ}
    {eq2top : List (List ℝ)} {srcs : List Src}
    (hall : ∀ p ∈ srcs, tzOf eq2top p ≤ 0) :
    timeStep polarized beams nax nfeed bidx antpos freq eq2top srcs = .ok zeroSlice := by
  unfold timeStep
  rw [selectUp_eq_nil hall]
  have hev : evaluate_beam_cpu polarized beams nax nfeed beams.length
      (List.length ([] : List Src)) (vsTOf eq2top []) =
      .ok (A_s polarized beams (vsTOf eq2top [])) := by
    unfold evaluate_beam_cpu
    rw [if_neg]
    rintro ⟨ax, hax, f, hf, b, hb, s, hs, -⟩
    simp at hs
  rw [hev]
  show Except.ok (fun f1 a1 f2 a2 =>
    sliceEntry (get_antenna_vis (A_s polarized beams (vsTOf eq2top []))
      antpos eq2top freq bidx []) nax (List.length ([] : List Src)) f1 a1 f2 a2) = _
  congr 1
  funext f1 a1 f2 a2
  simp only [List.length_nil]
  rw [sliceEntry_empty]
  rfl

lemma timeStep_remove_below {polarized : Bool} {beams : List ModelBeam}
    {nax nfeed : ℕ} {bidx : List ℤ} {antpos : List (List ℝ)} {freq : ℝ}
    {eq2top : List (List ℝ)} (sPre sPost : List Src) (p : Src)
    (hz : tzOf eq2top p ≤ 0) :
    timeStep polarized beams nax nfeed bidx antpos freq eq2top (sPre ++ p :: sPost) =
      timeStep polarized beams nax nfeed bidx antpos freq eq2top (sPre ++ sPost) := by
  apply timeStep_congr_select
  rw [selectUp_append, selectUp_append, selectUp_cons_of_nonpos hz]

lemma getD_mem_of_lt {α : Type} {l : List α} {n : ℕ} (d : α) (h : n < l.length) :
    l.getD n d ∈ l := by
  rw [List.getD_eq_getElem _ _ h]
  exact List.getElem_mem _

lemma stepV_isSome {args : VisArgs} {nax nfeed : ℕ} {bidx : List ℤ} {t : ℕ}
    {S : Slice} {f a ax s : ℕ}
    (hS : stepFun args nax nfeed bidx t = .ok S)
    (hf : f < nfeed) (hax : ax < nax) (hs : s < (stepVis args t).length)
    (hI : ∀ x ∈ args.I_sky, 0 ≤ x)
    (hbb : (bidx.getD a 0).toNat < args.beam_list.length) :
    (stepVmat args bidx t f a ax s).isSome := by
  unfold stepVmat stepV get_antenna_vis
  apply omul_isSome
  · exact timeStep_ok_A_isSome
      (show timeStep args.polarized args.beam_list nax nfeed bidx args.antpos
        args.freq (args.eq2tops.getD t []) (args.crd_eq.zip args.I_sky) = .ok S
        from hS) ax hax f hf _ hbb s hs
  · apply v0_isSome
    have hmem : (stepVis args t).getD s ([], 0) ∈ stepVis args t :=
      getD_mem_of_lt _ hs
    have hmem2 : (stepVis args t).getD s ([], 0) ∈ args.crd_eq.zip args.I_sky :=
      selectUp_subset hmem
    have hpair : ((stepVis args t).getD s ([], 0)).1 ∈ args.crd_eq ∧
        ((stepVis args t).getD s ([], 0)).2 ∈ args.I_sky := by
      apply List.of_mem_zip
      rw [Prod.mk.eta]
      exact hmem2
    exact hI _ hpair.2

lemma slices_getD_hermitian {args : VisArgs} {nax nfeed : ℕ} {bidx : List ℤ}
    {ntimes : ℕ} {slices : List Slice}
    (hc : collectSteps (stepFun args nax nfeed bidx) (List.range ntimes) = .ok slices) :
    ∀ t f1 a1 f2 a2, slices.getD t zeroSlice f1 a1 f2 a2 =
      ostar (slices.getD t zeroSlice f2 a2 f1 a1) := by
  intro t f1 a1 f2 a2
  by_cases ht : t < ntimes
  · rw [slices_entry_form hc ht]
    exact sliceEntry_hermitian _ _ _ _ _ _ _
  · have hlen : slices.length = ntimes := by
      rw [(collectSteps_ok hc).1]
      simp
    rw [List.getD_eq_default]
    · simp [zeroSlice, ostar]
    · omega

lemma slices_getD_diag_real {args : VisArgs} {nax nfeed : ℕ} {bidx : List ℤ}
    {ntimes : ℕ} {slices : List Slice}
    (hc : collectSteps (stepFun args nax nfeed bidx) (List.range ntimes) = .ok slices) :
    ∀ t f a : ℕ, ∀ z : ℂ, slices.getD t zeroSlice f a f a = some z → z.im = 0 := by
  intro t f a z hz
  by_cases ht : t < ntimes
  · rw [slices_entry_form hc ht] at hz
    exact sliceEntry_diag_real _ _ _ _ _ z hz
  · have hlen : slices.length = ntimes := by
      rw [(collectSteps_ok hc).1]
      simp
    rw [List.getD_eq_default] at hz
    · simp only [zeroSlice] at hz
      injection hz with hz2
      simp [← hz2]
    · omega

/-- C7: when no explicit beam-index map is supplied, a single beam is
broadcast to every antenna (a map of zeros), a beam count equal to the
antenna count maps beam `i` to antenna `i`, and any other beam count is an
error; an explicit map is accepted exactly when it has length `nant` and
every value lies in `[0, nbeam)`, and is rejected with an error otherwise.
A beam-index error aborts the whole `vis_cpu` call with that error. -/
theorem c7_beam_index_map (nbeam nant : ℕ) (ix : List ℤ) (args : VisArgs)
    (nax nfeed nant2 ntimes : ℕ) :
    (nbeam = 1 → wrangleIdx none nbeam nant = .ok (List.replicate nant 0)) ∧
    (nbeam ≠ 1 → nbeam = nant →
      wrangleIdx none nbeam nant = .ok ((List.range nant).map Int.ofNat)) ∧
    (nbeam ≠ 1 → nbeam ≠ nant → ∃ e, wrangleIdx none nbeam nant = .error e) ∧
    (wrangleIdx (some ix) nbeam nant = .ok ix ↔
      ix.length = nant ∧ ∀ i ∈ ix, 0 ≤ i ∧ i < (nbeam : ℤ)) ∧
    (¬ (ix.length = nant ∧ ∀ i ∈ ix, 0 ≤ i ∧ i < (nbeam : ℤ)) →
      ∃ e, wrangleIdx (some ix) nbeam nant = .error e) ∧
    (∀ e, validate_inputs args = .ok (nax, nfeed, nant2, ntimes) →
      wrangleIdx args.beam_idx args.beam_list.length nant2 = .error e →
      vis_cpu args = .error e) := by
  refine ⟨?_, ?_, ?_, ?_, ?_, ?_⟩
  · intro h1
    simp [wrangleIdx, h1]
  · intro h1 h2
    subst h2
    simp only [wrangleIdx]
    rw [if_neg h1]
    simp
  · intro h1 h2
    simp only [wrangleIdx]
    rw [if_neg h1, if_neg h2]
    exact ⟨_, rfl⟩
  · constructor
    · intro h
      simp only [wrangleIdx] at h
      by_cases h1 : ix.length ≠ nant
      · rw [if_pos h1] at h
        exact absurd h (by simp)
      · rw [if_neg h1] at h
        by_cases h2 : ¬ (∀ i ∈ ix, 0 ≤ i ∧ i < (nbeam : ℤ))
        · rw [if_pos h2] at h
          exact absurd h (by simp)
        · push_neg at h1 h2
          exact ⟨h1, h2⟩
    · rintro ⟨h1, h2⟩
      simp only [wrangleIdx]
      rw [if_neg (by simp [h1]), if_neg (not_not_intro h2)]
  · intro h
    simp only [wrangleIdx]
    by_cases h1 : ix.length ≠ nant
    · rw [if_pos h1]
      exact ⟨_, rfl⟩
    · rw [if_neg h1]
      push_neg at h1
      have h2 : ¬ (∀ i ∈ ix, 0 ≤ i ∧ i < (nbeam : ℤ)) := fun hall => h ⟨h1, hall⟩
      rw [if_pos h2]
      exact ⟨_, rfl⟩
  · intro e hv hw
    apply vis_cpu_error_wrangle hv
    simp only [wrangle_beams, hw]

/-- C7 witness: with three beams, one antenna and no explicit map the beam
wrangler, and with it the whole call, fails with the beam-index error. -/
theorem c7_beam_index_map_witness :
    vis_cpu badIdxArgs =
      .error "If number of beams provided is not 1 or nant, beam_idx must be provided." :=
  (c7_beam_index_map 3 1 [0] badIdxArgs 1 1 1 1).2.2.2.2.2 _ rfl rfl

/-- C6: if polarized output is requested and some beam is not an
electric-field beam, or scalar output is requested and some beam is not a
single-polarization (XX or YY) power beam, the call fails with the
beam-type error.  The conclusion holds for arbitrary rotation matrices,
sky model and beam response values, i.e. before any per-time-sample
coordinate rotation, beam evaluation or visibility accumulation can
contribute anything to the result. -/
theorem c6_beam_type_mismatch_fails_fast (args : VisArgs)
    (nax nfeed nant ntimes : ℕ) (idx : List ℤ)
    (hv : validate_inputs args = .ok (nax, nfeed, nant, ntimes))
    (hi : wrangleIdx args.beam_idx args.beam_list.length nant = .ok idx) :
    (args.polarized = true → (∃ b ∈ args.beam_list, b.beamType ≠ "efield") →
      vis_cpu args = .error "beam type must be efield if using polarized=True") ∧
    (args.polarized = false → (∃ b ∈ args.beam_list,
        (b.beamType ≠ "power" ∨ 1 < b.npols ∨ (b.pol0 ≠ -5 ∧ b.pol0 ≠ -6))) →
      vis_cpu args = .error
        "beam type must be power and have only one pol (either xx or yy) if polarized=False") := by
  constructor
  · intro hp hbad
    apply vis_cpu_error_wrangle hv
    simp only [wrangle_beams, hi]
    rw [if_pos ⟨hp, hbad⟩]
  · intro hp hbad
    apply vis_cpu_error_wrangle hv
    simp only [wrangle_beams, hi]
    rw [if_neg (by simp [hp]), if_pos ⟨hp, hbad⟩]

/-- C6 witness: requesting polarized output from a single shared power beam
fails with the e-field type error. -/
theorem c6_beam_type_mismatch_fails_fast_witness :
    vis_cpu mmArgs = .error "beam type must be efield if using polarized=True" :=
  (c6_beam_type_mismatch_fails_fast mmArgs 2 2 1 1 [0] rfl rfl).1 rfl
    ⟨constPowerBeam, by simp [mmArgs], by decide⟩

/-- C5: if the beam evaluation of some time sample produces a non-finite
amplitude for any visible source (any axis, feed or beam within range),
the call raises the beam-interpolation error; no output tensor is
produced, so the non-finite amplitude is never used in the voltage
composition or the visibility matrix product. -/
theorem c5_nonfinite_beam_raises (args : VisArgs)
    (nax nfeed nant ntimes : ℕ) (bidx : List ℤ) (t : ℕ)
    (hv : validate_inputs args = .ok (nax, nfeed, nant, ntimes))
    (hw : wrangle_beams args.beam_idx args.beam_list args.polarized nant = .ok bidx)
    (ht : t < ntimes)
    (hbad : ∃ ax < nax, ∃ f < nfeed, ∃ b < args.beam_list.length,
      ∃ s < (stepVis args t).length,
      (A_s args.polarized args.beam_list
        (vsTOf (stepRot args t) (stepVis args t)) ax f b s).isNone) :
    vis_cpu args = .error "Beam interpolation resulted in an invalid value" := by
  apply vis_cpu_error_steps hv hw
  have hev : evaluate_beam_cpu args.polarized args.beam_list nax nfeed
      args.beam_list.length
      (selectUp (args.eq2tops.getD t []) (args.crd_eq.zip args.I_sky)).length
      (vsTOf (args.eq2tops.getD t [])
        (selectUp (args.eq2tops.getD t []) (args.crd_eq.zip args.I_sky))) =
      .error "Beam interpolation resulted in an invalid value" := by
    unfold stepVis stepRot stepSrcs at hbad
    unfold evaluate_beam_cpu
    rw [if_pos hbad]
  have hstep : stepFun args nax nfeed bidx t =
      .error "Beam interpolation resulted in an invalid value" := by
    show timeStep args.polarized args.beam_list nax nfeed bidx args.antpos
      args.freq (args.eq2tops.getD t []) (args.crd_eq.zip args.I_sky) = _
    unfold timeStep
    rw [hev]
  apply collectSteps_error (List.mem_range.mpr ht) hstep
  intro u hu e hue
  exact timeStep_error_msg hue

/-- C5 witness: a shared power beam whose interpolation yields a non-finite
value makes the whole call fail with the beam-interpolation error. -/
theorem c5_nonfinite_beam_raises_witness :
    vis_cpu nanArgs = .error "Beam interpolation resulted in an invalid value" := by
  have hs : stepVis nanArgs 0 = [([0, 0, 1], 2)] := by
    show selectUp id3 [([0, 0, 1], 2)] = _
    exact sel_std
  apply c5_nonfinite_beam_raises nanArgs 1 1 1 1 [0] 0 rfl rfl (by norm_num)
  refine ⟨0, by norm_num, 0, by norm_num, 0, by simp [nanArgs], 0, ?_, ?_⟩
  · rw [hs]
    norm_num
  · rw [hs]
    show (A_s false [nanBeam] (vsTOf id3 [([0, 0, 1], 2)]) 0 0 0 0).isNone = true
    rw [A_s_nan]
    rfl

/-- C2: for any antenna `a` and any source `p` above the horizon
(`0 < tz`), with a non-negative intensity, the pre-beam per-antenna
voltage equals `exp(i * 2 pi * freq * tau) * sqrt(0.5 * I)`, where the
delay `tau` is the dot product of the antenna position with the source's
topocentric direction vector divided by the speed of light — a per-antenna
quantity.  `v0` takes no polarization flag, so the factor of one half is
applied regardless of the polarization mode. -/
theorem c2_voltage_formula (antpos eq2top : List (List ℝ)) (freq : ℝ) (a : ℕ)
    (p : Src) (_hup : 0 < tzOf eq2top p) (hI : 0 ≤ p.2) :
    v0 antpos eq2top freq a p =
      some (Complex.exp (Complex.I * (2 * Real.pi * freq *
        (dot3 (matRow antpos a)
          [topo eq2top p.1 0, topo eq2top p.1 1, topo eq2top p.1 2] / cVal))) *
        (Real.sqrt (0.5 * p.2) : ℝ)) := by
  have harg : ang_freq freq * tauOf antpos eq2top a p.1 =
      2 * Real.pi * freq * (dot3 (matRow antpos a)
        [topo eq2top p.1 0, topo eq2top p.1 1, topo eq2top p.1 2] / cVal) := by
    unfold ang_freq tauOf
    rw [show dot3 (matRow antpos a)
        [topo eq2top p.1 0, topo eq2top p.1 1, topo eq2top p.1 2] =
        (matRow antpos a).getD 0 0 * topo eq2top p.1 0 +
        (matRow antpos a).getD 1 0 * topo eq2top p.1 1 +
        (matRow antpos a).getD 2 0 * topo eq2top p.1 2 by
      unfold dot3
      norm_num]
    ring
  unfold v0 IsqrtOf npSqrt
  rw [if_neg (by linarith : ¬ (0.5 * p.2 < 0))]
  simp only [Option.map_some', omul]
  congr 2
  rw [← Complex.ofReal_mul, harg]
  push_cast
  ring

/-- C2 witness: the formula instantiated at the standard one-antenna,
zenith-source configuration. -/
theorem c2_voltage_formula_witness :
    0 < tzOf id3 ([0, 0, 1], 2) ∧ (0 : ℝ) ≤ 2 ∧
      v0 [[0, 0, 0]] id3 1 0 ([0, 0, 1], 2) =
        some (Complex.exp (Complex.I * (2 * Real.pi * 1 *
          (dot3 (matRow [[0, 0, 0]] 0)
            [topo id3 [0, 0, 1] 0, topo id3 [0, 0, 1] 1, topo id3 [0, 0, 1] 2] / cVal))) *
          (Real.sqrt (0.5 * 2) : ℝ)) :=
  ⟨by rw [tzOf_id3]; norm_num, by norm_num,
    c2_voltage_formula [[0, 0, 0]] id3 1 0 ([0, 0, 1], 2)
      (by rw [tzOf_id3]; norm_num) (by norm_num)⟩

/-- C10: a time sample at which every source is at or below the horizon is
processed without error — the empty visible-source batch passes beam
evaluation — and its slice is identically zero; consequently, in a
successful call, every output entry of such a time sample is exactly
zero, in both polarization modes. -/
theorem c10_all_below_horizon_zero_slice (polarized : Bool)
    (beams : List ModelBeam) (nax nfeed : ℕ) (bidx : List ℤ)
    (antpos : List (List ℝ)) (freq : ℝ) (eq2top : List (List ℝ))
    (srcs : List Src) (args : VisArgs) (T : Tensor) (t : ℕ) :
    ((∀ p ∈ srcs, tzOf eq2top p ≤ 0) →
      timeStep polarized beams nax nfeed bidx antpos freq eq2top srcs = .ok zeroSlice) ∧
    (vis_cpu args = .ok T → t < args.eq2tops.length →
      (∀ p ∈ args.crd_eq.zip args.I_sky, tzOf (args.eq2tops.getD t []) p ≤ 0) →
      (args.polarized = true → ∀ f1 f2 a1 a2 : ℕ,
        T.entry [t, f1, f2, a1, a2] = some 0) ∧
      (args.polarized = false → ∀ a1 a2 : ℕ, T.entry [t, a1, a2] = some 0)) := by
  constructor
  · exact timeStep_all_below
  · intro hOk ht hall
    obtain ⟨nax2, nfeed2, nant2, ntimes2, bidx2, slices, hv, hw, hc, hT⟩ :=
      vis_cpu_ok_inv hOk
    obtain ⟨-, -, -, hnt⟩ := validate_inputs_ok_inv hv
    have ht2 : t < ntimes2 := by rw [hnt]; exact ht
    have hstep : stepFun args nax2 nfeed2 bidx2 t = .ok zeroSlice := by
      show timeStep args.polarized args.beam_list nax2 nfeed2 bidx2 args.antpos
        args.freq (args.eq2tops.getD t []) (args.crd_eq.zip args.I_sky) = _
      exact timeStep_all_below hall
    have hgd : slices.getD t zeroSlice = zeroSlice := by
      rw [(slices_getD_of_collect hc ht2).1, hstep]
      rfl
    constructor
    · intro hpol f1 f2 a1 a2
      rw [hT]
      simp only [mkOut, hpol, hgd]
      rfl
    · intro hpol a1 a2
      rw [hT]
      simp only [mkOut, hpol, hgd]
      rfl

/-- C10 witness: the standard input with its only source below the horizon
returns successfully and its single time sample is zero. -/
theorem c10_all_below_horizon_zero_slice_witness :
    ∃ T, vis_cpu lowArgs = .ok T ∧ T.entry [0, 0, 0] = some 0 := by
  have hall : ∀ p ∈ lowArgs.crd_eq.zip lowArgs.I_sky,
      tzOf (lowArgs.eq2tops.getD 0 []) p ≤ 0 := by
    intro p hp
    have hp2 : p = ([0, 0, -1], (2 : ℝ)) := by
      simpa [lowArgs] using hp
    rw [hp2]
    show tzOf id3 ([0, 0, -1], 2) ≤ 0
    rw [tzOf_id3]
    norm_num
  have hstep : stepFun lowArgs 1 1 [0] 0 = .ok zeroSlice := by
    show timeStep false [constPowerBeam] 1 1 [0] [[0, 0, 0]] 1 id3
      [([0, 0, -1], 2)] = _
    exact timeStep_all_below (by
      intro p hp
      have hp2 : p = ([0, 0, -1], (2 : ℝ)) := by simpa using hp
      rw [hp2, tzOf_id3]
      norm_num)
  have hcoll : collectSteps (stepFun lowArgs 1 1 [0]) (List.range 1) =
      .ok [zeroSlice] := by
    rw [show List.range 1 = [0] from rfl]
    unfold collectSteps
    rw [hstep]
    rfl
  have hOk : vis_cpu lowArgs = .ok (mkOut false 1 1 1 [zeroSlice]) :=
    vis_cpu_eq (show validate_inputs lowArgs = Except.ok (1, 1, 1, 1) from rfl)
      (show wrangle_beams lowArgs.beam_idx lowArgs.beam_list lowArgs.polarized 1 =
        Except.ok [0] from rfl) hcoll
  refine ⟨_, hOk, ?_⟩
  exact ((c10_all_below_horizon_zero_slice false [constPowerBeam] 1 1 [0]
    [[0, 0, 0]] 1 id3 [([0, 0, -1], 2)] lowArgs _ 0).2 hOk
    (by simp [lowArgs]) hall).2 rfl 0 0

/-- C9: every per-time output slice of a successful call is Hermitian over
the combined (feed, antenna) index space — entry `(i, j)` is the complex
conjugate of entry `(j, i)` — and in scalar mode the `N_ant x N_ant` slice
is Hermitian with every finite diagonal entry real. -/
theorem c9_hermitian_output (args : VisArgs) (T : Tensor)
    (h : vis_cpu args = .ok T) :
    (args.polarized = true → ∀ t f1 f2 a1 a2 : ℕ,
      T.entry [t, f1, f2, a1, a2] = ostar (T.entry [t, f2, f1, a2, a1])) ∧
    (args.polarized = false →
      (∀ t a1 a2 : ℕ, T.entry [t, a1, a2] = ostar (T.entry [t, a2, a1])) ∧
      (∀ t a : ℕ, ∀ z : ℂ, T.entry [t, a, a] = some z → z.im = 0)) := by
  obtain ⟨nax, nfeed, nant, ntimes, bidx, slices, hv, hw, hc, hT⟩ :=
    vis_cpu_ok_inv h
  constructor
  · intro hpol t f1 f2 a1 a2
    rw [hT]
    simp only [mkOut, hpol]
    exact slices_getD_hermitian hc t f1 a1 f2 a2
  · intro hpol
    constructor
    · intro t a1 a2
      rw [hT]
      simp only [mkOut, hpol]
      exact slices_getD_hermitian hc t 0 a1 0 a2
    · intro t a z hz
      rw [hT] at hz
      simp only [mkOut, hpol] at hz
      exact slices_getD_diag_real hc t 0 a z hz

/-- C9 witness: the standard scalar-mode call is Hermitian at its only
entry (the diagonal auto-correlation). -/
theorem c9_hermitian_output_witness :
    ∃ T, vis_cpu stdArgs = .ok T ∧
      T.entry [0, 0, 0] = ostar (T.entry [0, 0, 0]) := by
  obtain ⟨T, hT, -⟩ := std_eval
  exact ⟨T, hT, ((c9_hermitian_output stdArgs T hT).2 rfl).1 0 0 0⟩

/-- C8: a successful call returns the shape
`(ntimes, 2, 2, nant, nant)` when polarized and `(ntimes, nant, nant)`
when scalar (the singleton feed axes dropped), with `ntimes` the number of
rotation matrices, and the slice at time index `t` is the one computed
from the `t`-th rotation matrix, preserving the chronological input
order. -/
theorem c8_output_shape_and_time_order (args : VisArgs)
    (nax nfeed nant ntimes : ℕ) (bidx : List ℤ) (T : Tensor)
    (hv : validate_inputs args = .ok (nax, nfeed, nant, ntimes))
    (hw : wrangle_beams args.beam_idx args.beam_list args.polarized nant = .ok bidx)
    (h : vis_cpu args = .ok T) :
    T.shape = (if args.polarized then [ntimes, 2, 2, nant, nant]
      else [ntimes, nant, nant]) ∧
    ntimes = args.eq2tops.length ∧
    ∀ t < ntimes,
      (args.polarized = true → ∀ f1 f2 a1 a2 : ℕ, T.entry [t, f1, f2, a1, a2] =
        okValue (stepFun args nax nfeed bidx t) f1 a1 f2 a2) ∧
      (args.polarized = false → ∀ a1 a2 : ℕ, T.entry [t, a1, a2] =
        okValue (stepFun args nax nfeed bidx t) 0 a1 0 a2) := by
  obtain ⟨nax2, nfeed2, nant2, ntimes2, bidx2, slices, hv2, hw2, hc, hT⟩ :=
    vis_cpu_ok_inv h
  rw [hv] at hv2
  injection hv2 with hq
  simp only [Prod.mk.injEq] at hq
  obtain ⟨rfl, rfl, rfl, rfl⟩ := hq
  rw [hw] at hw2
  injection hw2 with hb
  subst hb
  obtain ⟨-, hnf, -, hnt⟩ := validate_inputs_ok_inv hv
  refine ⟨?_, hnt, ?_⟩
  · rw [hT]
    cases hpol : args.polarized with
    | true => simp only [mkOut, hpol, if_true]; rw [hnf]; simp [hpol]
    | false => simp only [mkOut, hpol]; rfl
  · intro t ht
    constructor
    · intro hpol f1 f2 a1 a2
      rw [hT]
      simp only [mkOut, hpol]
      rw [(slices_getD_of_collect hc ht).1]
    · intro hpol a1 a2
      rw [hT]
      simp only [mkOut, hpol]
      rw [(slices_getD_of_collect hc ht).1]

/-- C8 witness: the standard scalar-mode call has shape `[1, 1, 1]`. -/
theorem c8_output_shape_and_time_order_witness :
    ∃ T, vis_cpu stdArgs = .ok T ∧ T.shape = [1, 1, 1] := by
  obtain ⟨T, hT, -⟩ := std_eval
  refine ⟨T, hT, ?_⟩
  have := (c8_output_shape_and_time_order stdArgs 1 1 1 1 [0] T rfl rfl hT).1
  simpa using this

/-- C1 counterexample: at a concrete two-antenna input whose two per-antenna
phases differ by one radian, the output entry `(0, 1)` of the only time
sample is `exp(i)`, which differs from the entry of the specification's
`V · Vᴴ` product (`specVVH`, row `i` dotted with the conjugate of row
`j`), namely `exp(-i)`: the code computes the entrywise conjugate
(equivalently the transpose) of `V · Vᴴ`, not ` V · Vᴴ` itself. -/
theorem c1_counterexample : getEntry (vis_cpu cex1Args) [0, 0, 1] ≠
    some (specVVH (stepVmat cex1Args [0, 0] 0) 1 1 0 0 0 1) := by
  rw [cex1_entry, cex1_spec]
  intro h
  have h2 : Complex.exp Complex.I = (starRingEnd ℂ) (Complex.exp Complex.I) := by
    injection h with h3
    injection h3
  have him : (Complex.exp Complex.I).im = Real.sin 1 := by
    rw [Complex.exp_im]
    simp
  have h4 := congrArg Complex.im h2
  rw [Complex.conj_im, him] at h4
  have := sin_one_pos
  linarith

/-- C1 as amended: every output entry of a successful call is the
conjugate-product `osum` of `conj(V[(f1,a1),(ax,s)]) * V[(f2,a2),(ax,s)]`
over the flattened (axis, visible-source) column index — i.e.
`visibility(i, j) = voltage(i)* . voltage(j)`, a single dense
conjugate-product of the voltage matrix, the entrywise conjugate of the
`V · Vᴴ` formulation. -/
theorem c1_slice_is_conjugate_product (args : VisArgs)
    (nax nfeed nant ntimes : ℕ) (bidx : List ℤ) (T : Tensor)
    (hv : validate_inputs args = .ok (nax, nfeed, nant, ntimes))
    (hw : wrangle_beams args.beam_idx args.beam_list args.polarized nant = .ok bidx)
    (h : vis_cpu args = .ok T) :
    ∀ t < ntimes,
      (args.polarized = true → ∀ f1 f2 a1 a2 : ℕ, T.entry [t, f1, f2, a1, a2] =
        osum ((List.range nax).flatMap fun ax =>
          (List.range (stepVis args t).length).map fun s =>
            omul (ostar (stepVmat args bidx t f1 a1 ax s))
              (stepVmat args bidx t f2 a2 ax s))) ∧
      (args.polarized = false → ∀ a1 a2 : ℕ, T.entry [t, a1, a2] =
        osum ((List.range nax).flatMap fun ax =>
          (List.range (stepVis args t).length).map fun s =>
            omul (ostar (stepVmat args bidx t 0 a1 ax s))
              (stepVmat args bidx t 0 a2 ax s))) := by
  obtain ⟨nax2, nfeed2, nant2, ntimes2, bidx2, slices, hv2, hw2, hc, hT⟩ :=
    vis_cpu_ok_inv h
  rw [hv] at hv2
  injection hv2 with hq
  simp only [Prod.mk.injEq] at hq
  obtain ⟨rfl, rfl, rfl, rfl⟩ := hq
  rw [hw] at hw2
  injection hw2 with hb
  subst hb
  intro t ht
  constructor
  · intro hpol f1 f2 a1 a2
    rw [hT]
    simp only [mkOut, hpol]
    rw [slices_entry_form hc ht]
    rfl
  · intro hpol a1 a2
    rw [hT]
    simp only [mkOut, hpol]
    rw [slices_entry_form hc ht]
    rfl

/-- C1 witness: the conjugate-product identity instantiated at the
standard one-antenna call. -/
theorem c1_slice_is_conjugate_product_witness :
    ∃ T, vis_cpu stdArgs = .ok T ∧ T.entry [0, 0, 0] =
      osum ((List.range 1).flatMap fun ax =>
        (List.range (stepVis stdArgs 0).length).map fun s =>
          omul (ostar (stepVmat stdArgs [0] 0 0 0 ax s))
            (stepVmat stdArgs [0] 0 0 0 ax s)) := by
  obtain ⟨T, hT, -⟩ := std_eval
  exact ⟨T, hT, ((c1_slice_is_conjugate_product stdArgs 1 1 1 1 [0] T rfl rfl hT)
    0 (by norm_num)).2 rfl 0 0⟩

lemma sel_neg : selectUp id3 [([0, 0, 1], (-1 : ℝ))] = [([0, 0, 1], -1)] := by
  simp only [selectUp]
  rw [if_pos]
  rw [tzOf_id3]
  norm_num

lemma neg_v0 : v0 [[0, 0, 0]] id3 1 0 ([0, 0, 1], -1) = none := by
  unfold v0 IsqrtOf npSqrt
  rw [if_pos (by norm_num : (0.5 * (-1 : ℝ)) < 0)]
  exact omul_none_right _

lemma neg_V : get_antenna_vis (A_s false [constPowerBeam] (vsTOf id3 [([0, 0, 1], -1)]))
    [[0, 0, 0]] id3 1 [0] [([0, 0, 1], -1)] 0 0 0 0 = none := by
  unfold get_antenna_vis
  simp only [List.getD_cons_zero, Int.toNat_zero]
  rw [A_s_constPower, neg_v0]
  exact omul_none_right _

lemma neg_step : stepFun negArgs 1 1 [0] 0 =
    .ok (fun f1 a1 f2 a2 =>
      sliceEntry (get_antenna_vis (A_s false [constPowerBeam] (vsTOf id3 [([0, 0, 1], -1)]))
        [[0, 0, 0]] id3 1 [0] [([0, 0, 1], -1)]) 1 1 f1 a1 f2 a2) := by
  show timeStep false [constPowerBeam] 1 1 [0] [[0, 0, 0]] 1 id3 [([0, 0, 1], -1)] = _
  unfold timeStep
  rw [sel_neg]
  simp only [List.length_cons, List.length_nil, List.length_singleton]
  rw [constPower_ev]

lemma neg_collect : collectSteps (stepFun negArgs 1 1 [0]) (List.range 1) =
    .ok [fun f1 a1 f2 a2 =>
      sliceEntry (get_antenna_vis (A_s false [constPowerBeam] (vsTOf id3 [([0, 0, 1], -1)]))
        [[0, 0, 0]] id3 1 [0] [([0, 0, 1], -1)]) 1 1 f1 a1 f2 a2] := by
  rw [show List.range 1 = [0] from rfl]
  unfold collectSteps
  rw [neg_step]
  rfl

/-- C4 counterexample: the input with the single source intensity `-1`
is accepted — the call returns a tensor rather than raising — and the
returned auto-correlation entry is non-finite (`none`, the NaN produced
by `np.sqrt` of the negative half-intensity), i.e. the call returns
silently with a non-finite entry. -/
theorem c4_counterexample : getEntry (vis_cpu negArgs) [0, 0, 0] = some none := by
  rw [vis_cpu_eq (show validate_inputs negArgs = Except.ok (1, 1, 1, 1) from rfl)
    (show wrangle_beams negArgs.beam_idx negArgs.beam_list negArgs.polarized 1 =
      Except.ok [0] from rfl) neg_collect]
  unfold getEntry
  simp only [mkOut, show negArgs.polarized = false from rfl, List.getD_cons_zero]
  rw [sliceEntry_one, neg_V]
  rfl

/-- C4 as amended: for every accepted input whose source intensities are
all non-negative, every in-range entry of the returned tensor is finite
(`isSome`); the unamended claim fails because a negative intensity is
accepted silently and yields a non-finite entry (see the
counterexample). -/
theorem c4_finite_of_nonneg (args : VisArgs)
    (nax nfeed nant ntimes : ℕ) (bidx : List ℤ) (T : Tensor)
    (hv : validate_inputs args = .ok (nax, nfeed, nant, ntimes))
    (hw : wrangle_beams args.beam_idx args.beam_list args.polarized nant = .ok bidx)
    (h : vis_cpu args = .ok T)
    (hI : ∀ x ∈ args.I_sky, 0 ≤ x) :
    ∀ ix : List ℕ, List.Forall₂ (· < ·) ix T.shape → (T.entry ix).isSome := by
  obtain ⟨nax2, nfeed2, nant2, ntimes2, bidx2, slices, hv2, hw2, hc, hT⟩ :=
    vis_cpu_ok_inv h
  rw [hv] at hv2
  injection hv2 with hq
  simp only [Prod.mk.injEq] at hq
  obtain ⟨rfl, rfl, rfl, rfl⟩ := hq
  rw [hw] at hw2
  injection hw2 with hb
  subst hb
  obtain ⟨-, hnf, hna, -⟩ := validate_inputs_ok_inv hv
  have hbounds := wrangleIdx_ok_bounds (wrangle_beams_ok_idx hw)
  intro ix hix
  have key : ∀ t f1 a1 f2 a2 : ℕ, t < ntimes → f1 < nfeed → f2 < nfeed →
      a1 < nant → a2 < nant →
      (slices.getD t zeroSlice f1 a1 f2 a2).isSome := by
    intro t f1 a1 f2 a2 ht hf1 hf2 ha1 ha2
    obtain ⟨hgd, hok⟩ := slices_getD_of_collect hc ht
    cases hS : stepFun args nax nfeed bidx t with
    | error e => rw [hS] at hok; exact absurd hok (by simp [Except.isOk, Except.toBool])
    | ok S =>
      rw [slices_entry_form hc ht]
      apply sliceEntry_isSome
      intro ax hax s hs
      constructor
      · exact stepV_isSome hS hf1 hax hs hI (hbounds a1 ha1).2
      · exact stepV_isSome hS hf2 hax hs hI (hbounds a2 ha2).2
  rw [hT] at hix ⊢
  simp only [mkOut] at hix ⊢
  cases hpol : args.polarized with
  | true =>
    rw [hpol] at hix
    simp only [if_true] at hix
    rcases hix with - | ⟨ht, hix⟩
    rcases hix with - | ⟨hf1, hix⟩
    rcases hix with - | ⟨hf2, hix⟩
    rcases hix with - | ⟨ha1, hix⟩
    rcases hix with - | ⟨ha2, hix⟩
    cases hix
    exact key _ _ _ _ _ ht hf1 hf2 ha1 ha2
  | false =>
    rw [hpol] at hix
    simp only [if_false, Bool.false_eq_true] at hix
    rcases hix with - | ⟨ht, hix⟩
    rcases hix with - | ⟨ha1, hix⟩
    rcases hix with - | ⟨ha2, hix⟩
    cases hix
    have hnf2 : nfeed = 1 := by simp [hnf, hpol]
    exact key _ _ _ _ _ ht (by omega) (by omega) ha1 ha2

/-- C4 witness: the standard valid input returns a finite entry. -/
theorem c4_finite_of_nonneg_witness :
    ∃ T, vis_cpu stdArgs = .ok T ∧ (T.entry [0, 0, 0]).isSome := by
  obtain ⟨T, hT, hsh⟩ := std_eval
  refine ⟨T, hT, ?_⟩
  apply c4_finite_of_nonneg stdArgs 1 1 1 1 [0] T rfl rfl hT
    (by intro x hx; simp [stdArgs] at hx; simp [hx])
  rw [hsh]
  exact List.Forall₂.cons (by norm_num)
    (List.Forall₂.cons (by norm_num) (List.Forall₂.cons (by norm_num) List.Forall₂.nil))

lemma zip_append_cons {pre post : List (List ℝ)} {preI postI : List ℝ}
    (d : List ℝ) (i0 : ℝ) (hl1 : pre.length = preI.length) :
    (pre ++ d :: post).zip (preI ++ i0 :: postI) =
      (pre.zip preI) ++ ((d, i0) :: (post.zip postI)) := by
  rw [List.zip_append hl1]
  rfl

lemma zip_append_plain {pre post : List (List ℝ)} {preI postI : List ℝ}
    (hl1 : pre.length = preI.length) :
    (pre ++ post).zip (preI ++ postI) = (pre.zip preI) ++ (post.zip postI) :=
  List.zip_append hl1

lemma validate_remove_eq (antpos : List (List ℝ)) (freq : ℝ)
    (eq2tops : List (List (List ℝ))) (pre post : List (List ℝ))
    (preI postI : List ℝ) (d : List ℝ) (i0 : ℝ) (beams : List ModelBeam)
    (prec : ℕ) (polarized : Bool) (beam_idx : Option (List ℤ))
    (hd : d.length = 3) :
    validate_inputs ⟨antpos, freq, eq2tops, pre ++ d :: post,
      preI ++ i0 :: postI, beams, prec, polarized, beam_idx⟩ =
    validate_inputs ⟨antpos, freq, eq2tops, pre ++ post, preI ++ postI,
      beams, prec, polarized, beam_idx⟩ := by
  unfold validate_inputs
  have e1 : (∀ x ∈ pre ++ d :: post, x.length = 3) ↔
      (∀ x ∈ pre ++ post, x.length = 3) := by
    simp only [List.mem_append, List.mem_cons]
    constructor
    · intro h x hx
      rcases hx with h1 | h2
      · exact h x (Or.inl h1)
      · exact h x (Or.inr (Or.inr h2))
    · intro h x hx
      rcases hx with h1 | h2 | h3
      · exact h x (Or.inl h1)
      · rw [h2]; exact hd
      · exact h x (Or.inr h3)
  have e2 : ((preI ++ i0 :: postI).length = (pre ++ d :: post).length) ↔
      ((preI ++ postI).length = (pre ++ post).length) := by
    simp only [List.length_append, List.length_cons]
    omega
  simp only [e1, e2]

/-- C3: a source whose topocentric "up" component is non-positive at a time
sample is excluded from that sample's computation — removing it (its
direction and intensity, at any position in the sky model) leaves the
sample's slice unchanged — and if it is at or below the horizon at every
time sample, removing it leaves the entire output of the call
unchanged. -/
theorem c3_horizon_exclusion (polarized : Bool) (beams : List ModelBeam)
    (nax nfeed : ℕ) (bidx : List ℤ) (antpos : List (List ℝ)) (freq : ℝ)
    (eq2tops : List (List (List ℝ))) (pre post : List (List ℝ))
    (preI postI : List ℝ) (d : List ℝ) (i0 : ℝ) (prec : ℕ)
    (beam_idx : Option (List ℤ)) :
    (∀ eq2top : List (List ℝ), ∀ sPre sPost : List Src,
      tzOf eq2top (d, i0) ≤ 0 →
      timeStep polarized beams nax nfeed bidx antpos freq eq2top
        (sPre ++ (d, i0) :: sPost) =
      timeStep polarized beams nax nfeed bidx antpos freq eq2top
        (sPre ++ sPost)) ∧
    (d.length = 3 → pre.length = preI.length → post.length = postI.length →
      (∀ m ∈ eq2tops, tzOf m (d, i0) ≤ 0) →
      vis_cpu ⟨antpos, freq, eq2tops, pre ++ d :: post, preI ++ i0 :: postI,
        beams, prec, polarized, beam_idx⟩ =
      vis_cpu ⟨antpos, freq, eq2tops, pre ++ post, preI ++ postI,
        beams, prec, polarized, beam_idx⟩) := by
  constructor
  · intro eq2top sPre sPost hz
    exact timeStep_remove_below sPre sPost (d, i0) hz
  · intro hd hl1 hl2 hz
    have hval := validate_remove_eq antpos freq eq2tops pre post preI postI d i0
      beams prec polarized beam_idx hd
    cases hv2 : validate_inputs ⟨antpos, freq, eq2tops, pre ++ post,
        preI ++ postI, beams, prec, polarized, beam_idx⟩ with
    | error e =>
      rw [vis_cpu_error_validate (hval.trans hv2), vis_cpu_error_validate hv2]
    | ok quad =>
      obtain ⟨nax2, nfeed2, nant2, ntimes2⟩ := quad
      have hv1 := hval.trans hv2
      obtain ⟨-, -, -, hnt⟩ := validate_inputs_ok_inv hv2
      cases hw2 : wrangle_beams beam_idx beams polarized nant2 with
      | error e =>
        rw [vis_cpu_error_wrangle hv1 hw2, vis_cpu_error_wrangle hv2 hw2]
      | ok bidx2 =>
        have hsteps : ∀ u ∈ List.range ntimes2,
            stepFun ⟨antpos, freq, eq2tops, pre ++ d :: post,
              preI ++ i0 :: postI, beams, prec, polarized, beam_idx⟩
              nax2 nfeed2 bidx2 u =
            stepFun ⟨antpos, freq, eq2tops, pre ++ post, preI ++ postI,
              beams, prec, polarized, beam_idx⟩ nax2 nfeed2 bidx2 u := by
          intro u hu
          show timeStep polarized beams nax2 nfeed2 bidx2 antpos freq
            (eq2tops.getD u []) ((pre ++ d :: post).zip (preI ++ i0 :: postI)) =
            timeStep polarized beams nax2 nfeed2 bidx2 antpos freq
            (eq2tops.getD u []) ((pre ++ post).zip (preI ++ postI))
          rw [zip_append_cons d i0 hl1, zip_append_plain hl1]
          apply timeStep_remove_below
          apply hz
          have hu2 : u < ntimes2 := List.mem_range.mp hu
          rw [hnt] at hu2
          rw [List.getD_eq_getElem _ _ hu2]
          exact List.getElem_mem _
        have hcoll := collectSteps_congr hsteps
        cases hc2 : collectSteps (stepFun ⟨antpos, freq, eq2tops, pre ++ post,
            preI ++ postI, beams, prec, polarized, beam_idx⟩ nax2 nfeed2 bidx2)
            (List.range ntimes2) with
        | error e =>
          rw [vis_cpu_error_steps hv1 hw2 (hcoll.trans hc2),
            vis_cpu_error_steps hv2 hw2 hc2]
        | ok slices =>
          rw [vis_cpu_eq hv1 hw2 (hcoll.trans hc2), vis_cpu_eq hv2 hw2 hc2]

/-- C3 witness: removing a below-horizon source from a two-source sky model
leaves the call's output unchanged. -/
theorem c3_horizon_exclusion_witness :
    vis_cpu ⟨[[0, 0, 0]], 1, [id3], [[0, 0, -1], [0, 0, 1]], [2, 2],
      [constPowerBeam], 1, false, none⟩ =
    vis_cpu ⟨[[0, 0, 0]], 1, [id3], [[0, 0, 1]], [2],
      [constPowerBeam], 1, false, none⟩ := by
  have h := (c3_horizon_exclusion false [constPowerBeam] 1 1 [0] [[0, 0, 0]] 1
    [id3] [] [[0, 0, 1]] [] [2] [0, 0, -1] 2 1 none).2 (by norm_num) rfl rfl
    (by
      intro m hm
      rw [List.mem_singleton] at hm
      rw [hm, tzOf_id3]
      norm_num)
  simpa using h
